import Mathlib

/-!
Verification of the fax decoder (`src/decoder.rs`): the Group 3 / Group 4
(ITU-T T.4 / T.6) bilevel image decoders and the `pels` pixel materializer.

The file embeds the Rust source shallowly:
* u16 values are `Nat` with an explicit `% 65536` exactly where the Rust code
  performs u16 arithmetic; the `(b1 as i16 + delta as i16) as u16` cast chain
  of Vertical mode is embedded as `((b1 + delta : Int) % 65536).toNat`, which
  is its two's-complement meaning.
* the bit stream is a `List Bool`, most significant bit of each byte first;
  fallible operations return `Option`.
* loops are fuel-indexed functions; every loop iteration of the source
  consumes at least one bit, so a fuel of `bits.length + 1` is exact.

The collaborators of `decoder.rs` (`BitReader`, the `maps` code tables and
the `Transitions` reference-line cursor) are not part of the source tree and
are modelled from the specification; each such definition carries a
`Modelled from the spec:` doc comment.
-/

namespace Fax

/-- The two pixel colors of `Color` in the source; lines start White. -/
inductive Color where
  | White : Color
  | Black : Color
deriving DecidableEq, Repr

/-- Negation of a color (the `!` operator on `Color` in the source). -/
def Color.flip : Color → Color
  | .White => .Black
  | .Black => .White

/-- MSB-first bits of one byte (`BitReader` presents each byte high bit first). -/
def byteBits (b : Nat) : List Bool :=
  (List.range 8).map (fun i => Nat.testBit b (7 - i))

/-- Modelled from the spec: the `ByteReader`/`BitReader` bit stream over a byte
iterator, MSB of each byte first. -/
def bytesToBits (input : List Nat) : List Bool :=
  (input.map byteBits).flatten

/-- Value of a bit string read MSB first. -/
def bitsVal (bs : List Bool) : Nat :=
  bs.foldl (fun a b => 2 * a + (if b then 1 else 0)) 0

/-- Modelled from the spec: `BitReader.peek(n)` returns the next `n` bits as an
integer, or fails if fewer than `n` bits remain. -/
def peekBits (n : Nat) (bs : List Bool) : Option Nat :=
  if n ≤ bs.length then some (bitsVal (bs.take n)) else none

/-- Strip a fixed codeword from the front of the stream; `none` when the
stream does not start with it (also when it is too short). -/
def stripCode : List Bool → List Bool → Option (List Bool)
  | [], bs => some bs
  | _ :: _, [] => none
  | c :: cs, b :: bs => if b = c then stripCode cs bs else none

/-- Modelled from the spec: `BitReader.expect(pattern)` matches a fixed
bit pattern and fails when the upcoming bits do not match. -/
def expectBits (pat bs : List Bool) : Option (List Bool) :=
  stripCode pat bs

/-- Convert a 0/1 digit list into bits (a readable notation for codewords). -/
def bitsOf (l : List Nat) : List Bool :=
  l.map (fun d => d == 1)

/-- The 12-bit EOL pattern `0000 0000 0001` (`maps::EOL`). -/
def eolBits : List Bool :=
  List.replicate 11 false ++ [true]

/-- Modelled from the spec: `maps::EDFB_HALF`, the remaining half of the EOFB
marker after Group 4's EOF mode consumed the first EOL: one EOL pattern. -/
def edfbHalf : List Bool :=
  eolBits

/-- Modelled from the spec: a prefix-code table decoder — consume the prefix of
the bit stream matching a table entry and return its symbol, failing when no
entry matches the available bits. The T.4/T.6 tables are prefix-free, so the
order of entries is irrelevant. -/
def decodeTable {α : Type} : List (List Bool × α) → List Bool → Option (α × List Bool)
  | [], _ => none
  | (c, v) :: rest, bs =>
    match stripCode c bs with
    | some bs' => some (v, bs')
    | none => decodeTable rest bs

/-- The T.6 two-dimensional coding modes (`maps::Mode`). -/
inductive Mode where
  | pass : Mode
  | vertical : Int → Mode
  | horizontal : Mode
  | extension : Mode
  | eof : Mode
deriving DecidableEq, Repr

/-- Modelled from the spec: the T.6 mode code table: 1 → Vertical(0);
011/010 → Vertical(±1); 000011/000010 → Vertical(±2); 0000011/0000010 →
Vertical(±3); 0001 → Pass; 001 → Horizontal; 0000001 → Extension; the EOL
pattern → EOF. -/
def modeTable : List (List Bool × Mode) :=
  [ (bitsOf [1], .vertical 0)
  , (bitsOf [0,1,1], .vertical 1)
  , (bitsOf [0,1,0], .vertical (-1))
  , (bitsOf [0,0,1], .horizontal)
  , (bitsOf [0,0,0,1], .pass)
  , (bitsOf [0,0,0,0,1,1], .vertical 2)
  , (bitsOf [0,0,0,0,1,0], .vertical (-2))
  , (bitsOf [0,0,0,0,0,1,1], .vertical 3)
  , (bitsOf [0,0,0,0,0,1,0], .vertical (-3))
  , (bitsOf [0,0,0,0,0,0,1], .extension)
  , (eolBits, .eof) ]

/-- Modelled from the spec: `mode::decode`. -/
def modeDecode (bs : List Bool) : Option (Mode × List Bool) :=
  decodeTable modeTable bs

/-- Modelled from the spec: the normative ITU-T T.4 Annex A white run code
table — terminating codes 0–63 followed by the makeup codes (64–1728) and the
color-independent extended makeup codes (1792–2560). -/
def whiteTable : List (List Bool × Nat) :=
  [ (bitsOf [0,0,1,1,0,1,0,1], 0)
  , (bitsOf [0,0,0,1,1,1], 1)
  , (bitsOf [0,1,1,1], 2)
  , (bitsOf [1,0,0,0], 3)
  , (bitsOf [1,0,1,1], 4)
  , (bitsOf [1,1,0,0], 5)
  , (bitsOf [1,1,1,0], 6)
  , (bitsOf [1,1,1,1], 7)
  , (bitsOf [1,0,0,1,1], 8)
  , (bitsOf [1,0,1,0,0], 9)
  , (bitsOf [0,0,1,1,1], 10)
  , (bitsOf [0,1,0,0,0], 11)
  , (bitsOf [0,0,1,0,0,0], 12)
  , (bitsOf [0,0,0,0,1,1], 13)
  , (bitsOf [1,1,0,1,0,0], 14)
  , (bitsOf [1,1,0,1,0,1], 15)
  , (bitsOf [1,0,1,0,1,0], 16)
  , (bitsOf [1,0,1,0,1,1], 17)
  , (bitsOf [0,1,0,0,1,1,1], 18)
  , (bitsOf [0,0,0,1,1,0,0], 19)
  , (bitsOf [0,0,0,1,0,0,0], 20)
  , (bitsOf [0,0,1,0,1,1,1], 21)
  , (bitsOf [0,0,0,0,0,1,1], 22)
  , (bitsOf [0,0,0,0,1,0,0], 23)
  , (bitsOf [0,1,0,1,0,0,0], 24)
  , (bitsOf [0,1,0,1,0,1,1], 25)
  , (bitsOf [0,0,1,0,0,1,1], 26)
  , (bitsOf [0,1,0,0,1,0,0], 27)
  , (bitsOf [0,0,1,1,0,0,0], 28)
  , (bitsOf [0,0,0,0,0,0,1,0], 29)
  , (bitsOf [0,0,0,0,0,0,1,1], 30)
  , (bitsOf [0,0,0,1,1,0,1,0], 31)
  , (bitsOf [0,0,0,1,1,0,1,1], 32)
  , (bitsOf [0,0,0,1,0,0,1,0], 33)
  , (bitsOf [0,0,0,1,0,0,1,1], 34)
  , (bitsOf [0,0,0,1,0,1,0,0], 35)
  , (bitsOf [0,0,0,1,0,1,0,1], 36)
  , (bitsOf [0,0,0,1,0,1,1,0], 37)
  , (bitsOf [0,0,0,1,0,1,1,1], 38)
  , (bitsOf [0,0,1,0,1,0,0,0], 39)
  , (bitsOf [0,0,1,0,1,0,0,1], 40)
  , (bitsOf [0,0,1,0,1,0,1,0], 41)
  , (bitsOf [0,0,1,0,1,0,1,1], 42)
  , (bitsOf [0,0,1,0,1,1,0,0], 43)
  , (bitsOf [0,0,1,0,1,1,0,1], 44)
  , (bitsOf [0,0,0,0,0,1,0,0], 45)
  , (bitsOf [0,0,0,0,0,1,0,1], 46)
  , (bitsOf [0,0,0,0,1,0,1,0], 47)
  , (bitsOf [0,0,0,0,1,0,1,1], 48)
  , (bitsOf [0,1,0,1,0,0,1,0], 49)
  , (bitsOf [0,1,0,1,0,0,1,1], 50)
  , (bitsOf [0,1,0,1,0,1,0,0], 51)
  , (bitsOf [0,1,0,1,0,1,0,1], 52)
  , (bitsOf [0,0,1,0,0,1,0,0], 53)
  , (bitsOf [0,0,1,0,0,1,0,1], 54)
  , (bitsOf [0,1,0,1,1,0,0,0], 55)
  , (bitsOf [0,1,0,1,1,0,0,1], 56)
  , (bitsOf [0,1,0,1,1,0,1,0], 57)
  , (bitsOf [0,1,0,1,1,0,1,1], 58)
  , (bitsOf [0,1,0,0,1,0,1,0], 59)
  , (bitsOf [0,1,0,0,1,0,1,1], 60)
  , (bitsOf [0,0,1,1,0,0,1,0], 61)
  , (bitsOf [0,0,1,1,0,0,1,1], 62)
  , (bitsOf [0,0,1,1,0,1,0,0], 63)
  , (bitsOf [1,1,0,1,1], 64)
  , (bitsOf [1,0,0,1,0], 128)
  , (bitsOf [0,1,0,1,1,1], 192)
  , (bitsOf [0,1,1,0,1,1,1], 256)
  , (bitsOf [0,0,1,1,0,1,1,0], 320)
  , (bitsOf [0,0,1,1,0,1,1,1], 384)
  , (bitsOf [0,1,1,0,0,1,0,0], 448)
  , (bitsOf [0,1,1,0,0,1,0,1], 512)
  , (bitsOf [0,1,1,0,1,0,0,0], 576)
  , (bitsOf [0,1,1,0,0,1,1,1], 640)
  , (bitsOf [0,1,1,0,0,1,1,0,0], 704)
  , (bitsOf [0,1,1,0,0,1,1,0,1], 768)
  , (bitsOf [0,1,1,0,1,0,0,1,0], 832)
  , (bitsOf [0,1,1,0,1,0,0,1,1], 896)
  , (bitsOf [0,1,1,0,1,0,1,0,0], 960)
  , (bitsOf [0,1,1,0,1,0,1,0,1], 1024)
  , (bitsOf [0,1,1,0,1,0,1,1,0], 1088)
  , (bitsOf [0,1,1,0,1,0,1,1,1], 1152)
  , (bitsOf [0,1,1,0,1,1,0,0,0], 1216)
  , (bitsOf [0,1,1,0,1,1,0,0,1], 1280)
  , (bitsOf [0,1,1,0,1,1,0,1,0], 1344)
  , (bitsOf [0,1,1,0,1,1,0,1,1], 1408)
  , (bitsOf [0,1,0,0,1,1,0,0,0], 1472)
  , (bitsOf [0,1,0,0,1,1,0,0,1], 1536)
  , (bitsOf [0,1,0,0,1,1,0,1,0], 1600)
  , (bitsOf [0,1,1,0,0,0], 1664)
  , (bitsOf [0,1,0,0,1,1,0,1,1], 1728)
  , (bitsOf [0,0,0,0,0,0,0,1,0,0,0], 1792)
  , (bitsOf [0,0,0,0,0,0,0,1,1,0,0], 1856)
  , (bitsOf [0,0,0,0,0,0,0,1,1,0,1], 1920)
  , (bitsOf [0,0,0,0,0,0,0,1,0,0,1,0], 1984)
  , (bitsOf [0,0,0,0,0,0,0,1,0,0,1,1], 2048)
  , (bitsOf [0,0,0,0,0,0,0,1,0,1,0,0], 2112)
  , (bitsOf [0,0,0,0,0,0,0,1,0,1,0,1], 2176)
  , (bitsOf [0,0,0,0,0,0,0,1,0,1,1,0], 2240)
  , (bitsOf [0,0,0,0,0,0,0,1,0,1,1,1], 2304)
  , (bitsOf [0,0,0,0,0,0,0,1,1,1,0,0], 2368)
  , (bitsOf [0,0,0,0,0,0,0,1,1,1,0,1], 2432)
  , (bitsOf [0,0,0,0,0,0,0,1,1,1,1,0], 2496)
  , (bitsOf [0,0,0,0,0,0,0,1,1,1,1,1], 2560) ]

/-- Modelled from the spec: the normative ITU-T T.4 Annex A black run code
table — terminating codes 0–63 followed by the makeup codes (64–1728) and the
color-independent extended makeup codes (1792–2560). -/
def blackTable : List (List Bool × Nat) :=
  [ (bitsOf [0,0,0,0,1,1,0,1,1,1], 0)
  , (bitsOf [0,1,0], 1)
  , (bitsOf [1,1], 2)
  , (bitsOf [1,0], 3)
  , (bitsOf [0,1,1], 4)
  , (bitsOf [0,0,1,1], 5)
  , (bitsOf [0,0,1,0], 6)
  , (bitsOf [0,0,0,1,1], 7)
  , (bitsOf [0,0,0,1,0,1], 8)
  , (bitsOf [0,0,0,1,0,0], 9)
  , (bitsOf [0,0,0,0,1,0,0], 10)
  , (bitsOf [0,0,0,0,1,0,1], 11)
  , (bitsOf [0,0,0,0,1,1,1], 12)
  , (bitsOf [0,0,0,0,0,1,0,0], 13)
  , (bitsOf [0,0,0,0,0,1,1,1], 14)
  , (bitsOf [0,0,0,0,1,1,0,0,0], 15)
  , (bitsOf [0,0,0,0,0,1,0,1,1,1], 16)
  , (bitsOf [0,0,0,0,0,1,1,0,0,0], 17)
  , (bitsOf [0,0,0,0,0,0,1,0,0,0], 18)
  , (bitsOf [0,0,0,0,1,1,0,0,1,1,1], 19)
  , (bitsOf [0,0,0,0,1,1,0,1,0,0,0], 20)
  , (bitsOf [0,0,0,0,1,1,0,1,1,0,0], 21)
  , (bitsOf [0,0,0,0,0,1,1,0,1,1,1], 22)
  , (bitsOf [0,0,0,0,0,1,0,1,0,0,0], 23)
  , (bitsOf [0,0,0,0,0,0,1,0,1,1,1], 24)
  , (bitsOf [0,0,0,0,0,0,1,1,0,0,0], 25)
  , (bitsOf [0,0,0,0,1,1,0,0,1,0,1,0], 26)
  , (bitsOf [0,0,0,0,1,1,0,0,1,0,1,1], 27)
  , (bitsOf [0,0,0,0,1,1,0,0,1,1,0,0], 28)
  , (bitsOf [0,0,0,0,1,1,0,0,1,1,0,1], 29)
  , (bitsOf [0,0,0,0,0,1,1,0,1,0,0,0], 30)
  , (bitsOf [0,0,0,0,0,1,1,0,1,0,0,1], 31)
  , (bitsOf [0,0,0,0,0,1,1,0,1,0,1,0], 32)
  , (bitsOf [0,0,0,0,0,1,1,0,1,0,1,1], 33)
  , (bitsOf [0,0,0,0,1,1,0,1,0,0,1,0], 34)
  , (bitsOf [0,0,0,0,1,1,0,1,0,0,1,1], 35)
  , (bitsOf [0,0,0,0,1,1,0,1,0,1,0,0], 36)
  , (bitsOf [0,0,0,0,1,1,0,1,0,1,0,1], 37)
  , (bitsOf [0,0,0,0,1,1,0,1,0,1,1,0], 38)
  , (bitsOf [0,0,0,0,1,1,0,1,0,1,1,1], 39)
  , (bitsOf [0,0,0,0,0,1,1,0,1,1,0,0], 40)
  , (bitsOf [0,0,0,0,0,1,1,0,1,1,0,1], 41)
  , (bitsOf [0,0,0,0,1,1,0,1,1,0,1,0], 42)
  , (bitsOf [0,0,0,0,1,1,0,1,1,0,1,1], 43)
  , (bitsOf [0,0,0,0,0,1,0,1,0,1,0,0], 44)
  , (bitsOf [0,0,0,0,0,1,0,1,0,1,0,1], 45)
  , (bitsOf [0,0,0,0,0,1,0,1,0,1,1,0], 46)
  , (bitsOf [0,0,0,0,0,1,0,1,0,1,1,1], 47)
  , (bitsOf [0,0,0,0,0,1,1,0,0,1,0,0], 48)
  , (bitsOf [0,0,0,0,0,1,1,0,0,1,0,1], 49)
  , (bitsOf [0,0,0,0,0,1,0,1,0,0,1,0], 50)
  , (bitsOf [0,0,0,0,0,1,0,1,0,0,1,1], 51)
  , (bitsOf [0,0,0,0,0,0,1,0,0,1,0,0], 52)
  , (bitsOf [0,0,0,0,0,0,1,1,0,1,1,1], 53)
  , (bitsOf [0,0,0,0,0,0,1,1,1,0,0,0], 54)
  , (bitsOf [0,0,0,0,0,0,1,0,0,1,1,1], 55)
  , (bitsOf [0,0,0,0,0,0,1,0,1,0,0,0], 56)
  , (bitsOf [0,0,0,0,0,1,0,1,1,0,0,0], 57)
  , (bitsOf [0,0,0,0,0,1,0,1,1,0,0,1], 58)
  , (bitsOf [0,0,0,0,0,0,1,0,1,0,1,1], 59)
  , (bitsOf [0,0,0,0,0,0,1,0,1,1,0,0], 60)
  , (bitsOf [0,0,0,0,0,1,0,1,1,0,1,0], 61)
  , (bitsOf [0,0,0,0,0,1,1,0,0,1,1,0], 62)
  , (bitsOf [0,0,0,0,0,1,1,0,0,1,1,1], 63)
  , (bitsOf [0,0,0,0,0,0,1,1,1,1], 64)
  , (bitsOf [0,0,0,0,1,1,0,0,1,0,0,0], 128)
  , (bitsOf [0,0,0,0,1,1,0,0,1,0,0,1], 192)
  , (bitsOf [0,0,0,0,0,1,0,1,1,0,1,1], 256)
  , (bitsOf [0,0,0,0,0,0,1,1,0,0,1,1], 320)
  , (bitsOf [0,0,0,0,0,0,1,1,0,1,0,0], 384)
  , (bitsOf [0,0,0,0,0,0,1,1,0,1,0,1], 448)
  , (bitsOf [0,0,0,0,0,0,1,1,0,1,1,0,0], 512)
  , (bitsOf [0,0,0,0,0,0,1,1,0,1,1,0,1], 576)
  , (bitsOf [0,0,0,0,0,0,1,0,0,1,0,1,0], 640)
  , (bitsOf [0,0,0,0,0,0,1,0,0,1,0,1,1], 704)
  , (bitsOf [0,0,0,0,0,0,1,0,0,1,1,0,0], 768)
  , (bitsOf [0,0,0,0,0,0,1,0,0,1,1,0,1], 832)
  , (bitsOf [0,0,0,0,0,0,1,1,1,0,0,1,0], 896)
  , (bitsOf [0,0,0,0,0,0,1,1,1,0,0,1,1], 960)
  , (bitsOf [0,0,0,0,0,0,1,1,1,0,1,0,0], 1024)
  , (bitsOf [0,0,0,0,0,0,1,1,1,0,1,0,1], 1088)
  , (bitsOf [0,0,0,0,0,0,1,1,1,0,1,1,0], 1152)
  , (bitsOf [0,0,0,0,0,0,1,1,1,0,1,1,1], 1216)
  , (bitsOf [0,0,0,0,0,0,1,0,1,0,0,1,0], 1280)
  , (bitsOf [0,0,0,0,0,0,1,0,1,0,0,1,1], 1344)
  , (bitsOf [0,0,0,0,0,0,1,0,1,0,1,0,0], 1408)
  , (bitsOf [0,0,0,0,0,0,1,0,1,0,1,0,1], 1472)
  , (bitsOf [0,0,0,0,0,0,1,0,1,1,0,1,0], 1536)
  , (bitsOf [0,0,0,0,0,0,1,0,1,1,0,1,1], 1600)
  , (bitsOf [0,0,0,0,0,0,1,1,0,0,1,0,0], 1664)
  , (bitsOf [0,0,0,0,0,0,1,1,0,0,1,0,1], 1728)
  , (bitsOf [0,0,0,0,0,0,0,1,0,0,0], 1792)
  , (bitsOf [0,0,0,0,0,0,0,1,1,0,0], 1856)
  , (bitsOf [0,0,0,0,0,0,0,1,1,0,1], 1920)
  , (bitsOf [0,0,0,0,0,0,0,1,0,0,1,0], 1984)
  , (bitsOf [0,0,0,0,0,0,0,1,0,0,1,1], 2048)
  , (bitsOf [0,0,0,0,0,0,0,1,0,1,0,0], 2112)
  , (bitsOf [0,0,0,0,0,0,0,1,0,1,0,1], 2176)
  , (bitsOf [0,0,0,0,0,0,0,1,0,1,1,0], 2240)
  , (bitsOf [0,0,0,0,0,0,0,1,0,1,1,1], 2304)
  , (bitsOf [0,0,0,0,0,0,0,1,1,1,0,0], 2368)
  , (bitsOf [0,0,0,0,0,0,0,1,1,1,0,1], 2432)
  , (bitsOf [0,0,0,0,0,0,0,1,1,1,1,0], 2496)
  , (bitsOf [0,0,0,0,0,0,0,1,1,1,1,1], 2560) ]

/-- Table selected by color (`white::decode` / `black::decode`). -/
def colorTable : Color → List (List Bool × Nat)
  | .White => whiteTable
  | .Black => blackTable

/-- Embedding of `with_markup`: repeatedly decode, summing the returned values
(u16 addition), until a value below 64 (a terminator) is returned; fail when
the underlying decoder fails. Fuel-indexed; every successful decode consumes
at least one bit, so `bs.length + 1` fuel is exact. -/
def withMarkup (dec : List Bool → Option (Nat × List Bool)) :
    Nat → Nat → List Bool → Option (Nat × List Bool)
  | 0, _, _ => none
  | fuel + 1, sum, bs =>
    match dec bs with
    | none => none
    | some (n, bs') =>
      if n < 64 then some ((sum + n) % 65536, bs')
      else withMarkup dec fuel ((sum + n) % 65536) bs'

/-- Embedding of `colored`: decode one full run of the given color. -/
def colored (c : Color) (bs : List Bool) : Option (Nat × List Bool) :=
  withMarkup (decodeTable (colorTable c)) (bs.length + 1) 0 bs

/-- Core of `pels`: the `flat_map` over the transition list, carrying the
running color and the previous position; each position `p` contributes a run
of `p.saturating_sub(last)` pixels (Nat subtraction is saturating). -/
def pelsCore : Color → Nat → List Nat → List Color
  | _, _, [] => []
  | c, last, p :: rest => List.replicate (p - last) c ++ pelsCore c.flip p rest

/-- The `pad_color` of `pels`, relative to a starting color `c`: the flipped
start color when the transition list has odd length, else the start color. -/
def padOf (c : Color) (line : List Nat) : Color :=
  if line.length % 2 = 1 then c.flip else c

/-- Embedding of `pels`: expand a transition list into exactly `width` pixel
colors, padding with `pad_color`. The source chains an infinite `repeat` before
`take width`; appending `width` copies of the pad color before the `take` is
the same list. -/
def pels (line : List Nat) (width : Nat) : List Color :=
  (pelsCore Color.White 0 line ++ List.replicate width (padOf Color.White line)).take width

/-- Specification-side color of pixel `j` for a transition list: start in `c`
and flip once per transition position that is at most `j`. Stated from the
spec's description of the materializer, for comparison with `pels`. -/
def specColor (c : Color) (line : List Nat) (j : Nat) : Color :=
  if line.countP (fun p => decide (p ≤ j)) % 2 = 0 then c else c.flip

/-- Color into which reference transition index `i` switches: even indices are
transitions into Black (lines start White), odd ones into White. -/
def transitionColor (i : Nat) : Color :=
  if i % 2 = 0 then .Black else .White

/-- Scan helper of `nextColor`: examine the suffix of the reference line
starting at index `i`, returning `(one past the found index, found position)`
for the first entry strictly greater than `eff` that is a transition into `c`. -/
def ncAux (eff : Int) (c : Color) : List Nat → Nat → Option (Nat × Nat)
  | [], _ => none
  | p :: rest, i =>
    if (eff < (p : Int)) ∧ transitionColor i = c then some (i + 1, p)
    else ncAux eff c rest (i + 1)

/-- Modelled from the spec: `Transitions.next_color(a0, colorToFind, atStart)`
advances the cursor to the smallest reference position strictly greater than
`a0` that is a transition into `colorToFind`; when `atStart` is true the
nominal value `-1` is used for `a0` so that position 0 may qualify. Returns
`(new cursor, position)`; the new cursor sits one past the found index. On
failure the scan has run off the end of the reference line. -/
def nextColor (line : List Nat) (pos : Nat) (a0 : Nat) (c : Color) (atStart : Bool) :
    Option (Nat × Nat) :=
  ncAux (if atStart then -1 else (a0 : Int)) c (line.drop pos) pos

/-- Modelled from the spec: `Transitions.next()` returns the reference entry at
the cursor and advances it; `none` past the end. Result is `(new cursor, value)`. -/
def nextT (line : List Nat) (pos : Nat) : Nat × Option Nat :=
  if h : pos < line.length then (pos + 1, some (line.get ⟨pos, h⟩)) else (pos, none)

/-- Modelled from the spec: `Transitions.seek_back(a0)` rewinds the cursor to
just past the largest reference position that is at most `a0` (the reference
line is sorted, so this is the number of leading entries at most `a0`). -/
def seekBack : List Nat → Nat → Nat
  | [], _ => 0
  | p :: rest, a0 => if p ≤ a0 then seekBack rest a0 + 1 else 0

/-- Per-line decoding state of `decode_g4`: remaining bits, the reference and
current transition buffers, the `Transitions` cursor, `a0`, the current color,
and the `start_of_row` flag. -/
structure G4State where
  bits : List Bool
  reference : List Nat
  current : List Nat
  pos : Nat
  a0 : Nat
  color : Color
  startOfRow : Bool
deriving DecidableEq, Repr

/-- Outcome of one iteration of `decode_g4`'s inner loop: continue the line,
end the line (`break`), abort the whole decode (`break 'outer`), or return
`None` from `decode_g4` immediately (a `?` operator firing). -/
inductive StepRes where
  | cont : G4State → StepRes
  | endLine : G4State → StepRes
  | halt : G4State → StepRes
  | fail : StepRes
deriving DecidableEq, Repr

/-- Tail of each non-breaking arm: `start_of_row = false;` then
`if a0 >= width { break }`. -/
def finishStep (width : Nat) (st : G4State) : StepRes :=
  if width ≤ st.a0 then .endLine { st with startOfRow := false }
  else .cont { st with startOfRow := false }

/-- Locate the cursor for Pass mode: the `pos += 1` special case at start of a
white row, otherwise `next_color(a0, !color, false)` (whose failure is fatal). -/
def passLocate (st : G4State) : Option Nat :=
  if st.startOfRow ∧ st.color = .White then some (st.pos + 1)
  else
    match nextColor st.reference st.pos st.a0 st.color.flip false with
    | some (p, _) => some p
    | none => none

/-- Embedding of the Pass arm: locate b1 (fatal on failure), then read b2 with
`next()`; when b2 exists set `a0 = b2`, otherwise leave `a0` unchanged; nothing
is pushed and the color is unchanged. -/
def passStep (width : Nat) (st : G4State) (bits' : List Bool) : StepRes :=
  match passLocate st with
  | none => .fail
  | some pos1 =>
    match nextT st.reference pos1 with
    | (pos2, some b2) => finishStep width { st with bits := bits', pos := pos2, a0 := b2 }
    | (pos2, none) => finishStep width { st with bits := bits', pos := pos2 }

/-- Core of the Vertical arm once b1 is known: `a1 = (b1 as i16 + delta as i16)
as u16`; if `a1 >= width` break, else push `a1`, flip the color, set `a0 = a1`
and `seek_back` when `delta < 0`. -/
def vertCore (width : Nat) (delta : Int) (st : G4State) (b1 : Nat) : StepRes :=
  if width ≤ (((b1 : Int) + delta) % 65536).toNat then .endLine st
  else if delta < 0 then
    finishStep width
      { st with
        current := st.current ++ [(((b1 : Int) + delta) % 65536).toNat],
        color := st.color.flip,
        a0 := (((b1 : Int) + delta) % 65536).toNat,
        pos := seekBack st.reference (((b1 : Int) + delta) % 65536).toNat }
  else
    finishStep width
      { st with
        current := st.current ++ [(((b1 : Int) + delta) % 65536).toNat],
        color := st.color.flip,
        a0 := (((b1 : Int) + delta) % 65536).toNat }

/-- Embedding of the Vertical arm: `b1 = next_color(a0, !color, start_of_row)`
defaulting to `width`, then `vertCore`. A failed scan leaves the cursor at the
end of the reference line. -/
def verticalStep (width : Nat) (delta : Int) (st : G4State) (bits' : List Bool) : StepRes :=
  match nextColor st.reference st.pos st.a0 st.color.flip st.startOfRow with
  | some (pos1, b1) => vertCore width delta { st with bits := bits', pos := pos1 } b1
  | none => vertCore width delta { st with bits := bits', pos := st.reference.length } width

/-- Embedding of the Horizontal arm: decode a run of the current color then of
the flipped color (each fatal on failure); `a1 = a0 + a0a1`, `a2 = a1 + a1a2`
(u16 additions); push `a1`; if `a2 >= width` break, else push `a2`, `a0 = a2`.
The color is left unchanged. -/
def horizontalStep (width : Nat) (st : G4State) (bits' : List Bool) : StepRes :=
  match colored st.color bits' with
  | none => .fail
  | some (a0a1, bits2) =>
    match colored st.color.flip bits2 with
    | none => .fail
    | some (a1a2, bits3) =>
      if width ≤ ((st.a0 + a0a1) % 65536 + a1a2) % 65536 then
        .endLine { st with bits := bits3, current := st.current ++ [(st.a0 + a0a1) % 65536] }
      else
        finishStep width
          { st with
            bits := bits3,
            current :=
              st.current ++ [(st.a0 + a0a1) % 65536, ((st.a0 + a0a1) % 65536 + a1a2) % 65536],
            a0 := ((st.a0 + a0a1) % 65536 + a1a2) % 65536 }

/-- One iteration of `decode_g4`'s inner loop: decode a mode symbol (failure
breaks the outer loop) and dispatch. Extension peeks 3 bits (fatal when fewer
remain), consumes them and breaks the outer loop; EOF breaks the outer loop. -/
def g4step (width : Nat) (st : G4State) : StepRes :=
  match modeDecode st.bits with
  | none => .halt st
  | some (m, bits') =>
    match m with
    | .pass => passStep width st bits'
    | .vertical delta => verticalStep width delta st bits'
    | .horizontal => horizontalStep width st bits'
    | .extension =>
      match peekBits 3 bits' with
      | none => .fail
      | some _ => .halt { st with bits := bits'.drop 3 }
    | .eof => .halt { st with bits := bits' }

/-- Exit of one line of `decode_g4`: the line completed and is emitted, or the
outer loop was broken. -/
inductive LineRes where
  | emit : G4State → LineRes
  | halt : G4State → LineRes
deriving DecidableEq, Repr

/-- The inner loop of `decode_g4`, fuel-indexed; `none` is `decode_g4`
returning `None` (a `?` operator fired; fuel cannot run out in reality since
every iteration consumes at least one bit). -/
def lineLoop (width : Nat) : Nat → G4State → Option LineRes
  | 0, _ => none
  | fuel + 1, st =>
    match g4step width st with
    | .fail => none
    | .halt st' => some (.halt st')
    | .endLine st' => some (.emit st')
    | .cont st' => lineLoop width fuel st'

/-- Fresh per-line state: cursor over the reference line, `a0 = 0`, color
White, `start_of_row = true`, empty current buffer. -/
def initLine (bits : List Bool) (ref : List Nat) : G4State :=
  ⟨bits, ref, [], 0, 0, .White, true⟩

/-- Result of `decode_g4`'s outer loop: an immediate failure (`?`), or the
remaining bits when the loop finishes; both carry the lines emitted so far. -/
inductive OuterRes where
  | failed : List (List Nat) → OuterRes
  | done : List Bool → List (List Nat) → OuterRes
deriving DecidableEq, Repr

/-- The outer (per-line) loop of `decode_g4`: for each remaining line, run the
inner loop; on a completed line invoke the callback (append the line), swap
current into reference and continue; `break 'outer` stops without emitting. -/
def outerLoop (width : Nat) : Nat → Nat → List Bool → List Nat → List (List Nat) → OuterRes
  | _, 0, bits, _, acc => .done bits acc
  | 0, _ + 1, _, _, acc => .failed acc
  | fuel + 1, ll + 1, bits, ref, acc =>
    match lineLoop width (bits.length + 1) (initLine bits ref) with
    | none => .failed acc
    | some (.halt st') => .done st'.bits acc
    | some (.emit st') => outerLoop width fuel ll st'.bits st'.current (acc ++ [st'.current])

/-- Epilogue of `decode_g4`: when no height was given, expect the remaining
half of the EOFB marker (failure yields `None`); otherwise report success. -/
def g4Finish (height : Option Nat) (bits : List Bool) (lines : List (List Nat)) :
    Option Unit × List (List Nat) :=
  match height with
  | some _ => (some (), lines)
  | none =>
    match expectBits edfbHalf bits with
    | some _ => (some (), lines)
    | none => (none, lines)

/-- Embedding of `decode_g4`: returns the source's `Option<()>` result paired
with the list of lines passed to the callback (in order). `limit` is
`height.unwrap_or(u16::MAX)`. -/
def decodeG4 (input : List Nat) (width : Nat) (height : Option Nat) :
    Option Unit × List (List Nat) :=
  let bits := bytesToBits input
  let limit := height.getD 65535
  match outerLoop width (bits.length + 1) limit bits [] [] with
  | .failed lines => (none, lines)
  | .done bitsEnd lines => g4Finish height bitsEnd lines

/-- The run loop of one Group 3 line: `while let Some(p) = colored(color) {
a0 += p; current.push(a0); color = !color; }` (u16 addition). -/
def g3Runs : Nat → Nat → Color → List Nat → List Bool → List Nat × List Bool
  | 0, _, _, cur, bs => (cur, bs)
  | fuel + 1, a0, c, cur, bs =>
    match colored c bs with
    | none => (cur, bs)
    | some (p, bs') => g3Runs fuel ((a0 + p) % 65536) c.flip (cur ++ [(a0 + p) % 65536]) bs'

/-- The end-of-page scan of `decode_g3`: up to `k` times, peek 12 bits; when
they equal the EOL pattern consume them and continue, otherwise stop. Returns
the remaining bits and whether all `k` EOLs were found (halt). -/
def eolCheck : Nat → List Bool → List Bool × Bool
  | 0, bs => (bs, true)
  | k + 1, bs =>
    if peekBits 12 bs = some 1 then eolCheck k (bs.drop 12)
    else (bs, false)

/-- Result of `decode_g3`: success with the emitted lines, or a Rust panic
(the source calls `.unwrap()` on `expect(EOL)`, which aborts instead of
returning `None`); the panic outcome also carries the lines already emitted. -/
inductive G3Res where
  | ok : List (List Nat) → G3Res
  | aborted : List (List Nat) → G3Res
deriving DecidableEq, Repr

/-- The line loop of `decode_g3`: decode runs until the run decoder fails,
`expect(EOL).unwrap()` (panic on mismatch), emit the line, then scan for six
consecutive EOLs — on the sixth halt, otherwise continue with the next line. -/
def g3Outer : Nat → List Bool → List (List Nat) → G3Res
  | 0, _, acc => .aborted acc
  | fuel + 1, bs, acc =>
    match g3Runs (bs.length + 1) 0 Color.White [] bs with
    | (line, bs1) =>
      match expectBits eolBits bs1 with
      | none => .aborted acc
      | some bs2 =>
        match eolCheck 6 bs2 with
        | (_, true) => .ok (acc ++ [line])
        | (bs3, false) => g3Outer fuel bs3 (acc ++ [line])

/-- Embedding of `decode_g3`: `expect(EOL).unwrap()` (panic on a missing
initial EOL) then the line loop. -/
def decodeG3 (input : List Nat) : G3Res :=
  let bs := bytesToBits input
  match expectBits eolBits bs with
  | none => .aborted []
  | some bs1 => g3Outer (bs.length + 1) bs1 []

/-! ### Helper lemmas -/

lemma Color.flip_flip (c : Color) : c.flip.flip = c := by
  cases c <;> rfl

lemma stripCode_eq_some : ∀ (pat bs r : List Bool), stripCode pat bs = some r ↔ bs = pat ++ r
  | [], bs, r => by simp [stripCode]
  | c :: cs, [], r => by simp [stripCode]
  | c :: cs, b :: bs, r => by
    by_cases h : b = c
    · subst h
      simp [stripCode, stripCode_eq_some cs bs r]
    · simp [stripCode, h]

lemma modeDecode_eol (r : List Bool) : modeDecode (eolBits ++ r) = some (Mode.eof, r) := by
  rfl

lemma expect_edfb_of_modeDecode_none {bs : List Bool} (h : modeDecode bs = none) :
    expectBits edfbHalf bs = none := by
  cases he : expectBits edfbHalf bs with
  | none => rfl
  | some r =>
    exfalso
    have hb : bs = eolBits ++ r := (stripCode_eq_some eolBits bs r).mp he
    rw [hb, modeDecode_eol] at h
    cases h

lemma pels_length (line : List Nat) (width : Nat) : (pels line width).length = width := by
  simp only [pels, List.length_take, List.length_append, List.length_replicate]
  omega

lemma chain_lt_of_mem {a : Nat} : ∀ {l : List Nat}, List.Chain (· < ·) a l → ∀ x ∈ l, a < x := by
  intro l
  induction l generalizing a with
  | nil => intro _ x hx; cases hx
  | cons b t ih =>
    intro h x hx
    rw [List.chain_cons] at h
    rcases List.mem_cons.mp hx with rfl | hx'
    · exact h.1
    · exact lt_trans h.1 (ih h.2 x hx')

lemma padOf_cons (c : Color) (p : Nat) (rest : List Nat) :
    padOf c (p :: rest) = padOf c.flip rest := by
  simp only [padOf, List.length_cons]
  by_cases h : rest.length % 2 = 1
  · have h' : ¬((rest.length + 1) % 2 = 1) := by omega
    rw [if_neg h', if_pos h, Color.flip_flip]
  · have h' : (rest.length + 1) % 2 = 1 := by omega
    rw [if_pos h', if_neg h]

lemma specColor_of_forall_lt {c : Color} {line : List Nat} {j : Nat}
    (h : ∀ x ∈ line, j < x) : specColor c line j = c := by
  have hz : line.countP (fun p => decide (p ≤ j)) = 0 := by
    rw [List.countP_eq_zero]
    intro a ha
    simp [Nat.not_le.mpr (h a ha)]
  simp [specColor, hz]

lemma specColor_cons_of_le (c : Color) (p : Nat) (rest : List Nat) (j : Nat) (h : p ≤ j) :
    specColor c (p :: rest) j = specColor c.flip rest j := by
  have hc : (p :: rest).countP (fun q => decide (q ≤ j))
      = rest.countP (fun q => decide (q ≤ j)) + 1 := by
    simp [List.countP_cons, h]
  rw [specColor, specColor, hc]
  by_cases h2 : rest.countP (fun q => decide (q ≤ j)) % 2 = 0
  · have h3 : ¬((rest.countP (fun q => decide (q ≤ j)) + 1) % 2 = 0) := by omega
    rw [if_neg h3, if_pos h2]
  · have h3 : (rest.countP (fun q => decide (q ≤ j)) + 1) % 2 = 0 := by omega
    rw [if_pos h3, if_neg h2, Color.flip_flip]

lemma take_append_replicate {α : Type} (X : List α) (a : α) (m n : Nat) (h : n ≤ m) :
    (X ++ List.replicate m a).take n = (X ++ List.replicate n a).take n := by
  rw [List.take_append_eq_append_take, List.take_append_eq_append_take,
      List.take_replicate, List.take_replicate]
  have : min (n - X.length) m = min (n - X.length) n := by omega
  rw [this]

/-! ### Claim theorems -/

/-- C7: the claim says `decode_g3` returns a single pass/fail indication
(`Some(())`/`None`) and, when an expected EOL is missing, returns failure to
the caller rather than aborting. The code instead calls
`reader.expect(EOL).unwrap()`, which panics (aborts) on the very first missing
EOL; this evaluation exhibits the abort on the empty input, where the claim
requires a returned `None`. -/
theorem c7_g3_aborts : decodeG3 [] = G3Res.aborted [] := by
  rfl

/-- C9: `pels` is total on arbitrary inputs: for every transition list — even
unsorted, with duplicates, or with positions at or beyond `width` — the output
has exactly `width` items, and an entry not greater than its predecessor
contributes a zero-length run (Nat subtraction models `saturating_sub`). -/
theorem c9_pels_total :
    ∀ (line : List Nat) (width : Nat),
    (pels line width).length = width ∧
    (∀ (c : Color) (last p : Nat) (rest : List Nat), p ≤ last →
      pelsCore c last (p :: rest) = pelsCore c.flip p rest) := by
  intro line width
  refine ⟨pels_length line width, ?_⟩
  intro c last p rest h
  simp [pelsCore, Nat.sub_eq_zero_of_le h]

/-- Witness for C9 at `line = [3, 3]`, `width = 5`: the duplicate entry `3`
contributes an empty run and the output still has 5 pixels. -/
theorem c9_witness :
    (pels [3, 3] 5).length = 5 ∧
    pelsCore Color.White 3 [3] = pelsCore Color.White.flip 3 [] :=
  ⟨(c9_pels_total [3, 3] 5).1,
   (c9_pels_total [3, 3] 5).2 Color.White 3 3 [] (by decide)⟩

/-- C3: a Horizontal step decodes a run of the current color then one of the
flipped color, pushes `a1 = a0 + a0a1` (u16 addition, written `% 65536`), ends
the line without pushing when `a2 = a1 + a1a2` reaches `width`, and otherwise
pushes `a2` and sets `a0 = a2`; the color field is unchanged in both outcomes
(and so is `a0` in the end-of-line outcome). -/
theorem c3_horizontal :
    ∀ (width : Nat) (st : G4State) (bits1 : List Bool) (a0a1 : Nat) (bits2 : List Bool)
      (a1a2 : Nat) (bits3 : List Bool),
    modeDecode st.bits = some (Mode.horizontal, bits1) →
    colored st.color bits1 = some (a0a1, bits2) →
    colored st.color.flip bits2 = some (a1a2, bits3) →
    (width ≤ ((st.a0 + a0a1) % 65536 + a1a2) % 65536 →
      g4step width st = .endLine
        { st with bits := bits3, current := st.current ++ [(st.a0 + a0a1) % 65536] }) ∧
    (((st.a0 + a0a1) % 65536 + a1a2) % 65536 < width →
      g4step width st = .cont
        { st with
          bits := bits3,
          current :=
            st.current ++ [(st.a0 + a0a1) % 65536, ((st.a0 + a0a1) % 65536 + a1a2) % 65536],
          a0 := ((st.a0 + a0a1) % 65536 + a1a2) % 65536,
          startOfRow := false }) := by
  intro width st bits1 a0a1 bits2 a1a2 bits3 hm h1 h2
  constructor
  · intro hge
    have hge' : width ≤ (st.a0 + a0a1 + a1a2) % 65536 := by
      rw [Nat.mod_add_mod] at hge
      exact hge
    simp [g4step, hm, horizontalStep, h1, h2, hge']
  · intro hlt
    have hlt' : ¬(width ≤ (st.a0 + a0a1 + a1a2) % 65536) := by
      rw [Nat.mod_add_mod] at hlt
      omega
    simp [g4step, hm, horizontalStep, h1, h2, hlt', finishStep]

/-- Witness for C3 at the spec's scenario S3: Horizontal at `a0 = 0`, color
White, white run 2 (`0111`), black run 3 (`10`), width 8: the step pushes
`[2, 5]`, sets `a0 = 5` and keeps the color White. -/
theorem c3_witness :
    g4step 8 ⟨bitsOf [0, 0, 1, 0, 1, 1, 1, 1, 0], [], [], 0, 0, Color.White, true⟩ =
      StepRes.cont ⟨[], [], [2, 5], 0, 5, Color.White, false⟩ := by
  have h := (c3_horizontal 8 ⟨bitsOf [0, 0, 1, 0, 1, 1, 1, 1, 0], [], [], 0, 0, Color.White, true⟩
      (bitsOf [0, 1, 1, 1, 1, 0]) 2 (bitsOf [1, 0]) 3 []
      (by decide) (by decide) (by decide)).2 (by decide)
  exact h

/-- C10: in Pass mode, once b1 has been located, a missing b2 (the cursor is
at or past the end of the reference line) leaves `a0`, `current` and the color
unchanged and decoding continues without an error: the step is an ordinary
continue, or an end of line only via the usual `a0 >= width` check. -/
theorem c10_pass_missing_b2 :
    ∀ (width : Nat) (st : G4State) (bits' : List Bool) (pos1 : Nat),
    modeDecode st.bits = some (Mode.pass, bits') →
    passLocate st = some pos1 →
    st.reference.length ≤ pos1 →
    g4step width st =
      if width ≤ st.a0 then
        StepRes.endLine ⟨bits', st.reference, st.current, pos1, st.a0, st.color, false⟩
      else
        StepRes.cont ⟨bits', st.reference, st.current, pos1, st.a0, st.color, false⟩ := by
  intro width st bits' pos1 hm hl hlen
  have hno : ¬(pos1 < st.reference.length) := by omega
  simp only [g4step, hm, passStep, hl, nextT, dif_neg hno, finishStep]

/-- Witness for C10: a Pass at the start of a white row over an empty
reference line (the `pos += 1` special case, then `next()` finds nothing):
`a0`, `current` and the color are unchanged and the line continues. -/
theorem c10_witness :
    g4step 5 (initLine (bitsOf [0, 0, 0, 1]) []) =
      StepRes.cont ⟨[], [], [], 1, 0, Color.White, false⟩ := by
  have h := c10_pass_missing_b2 5 (initLine (bitsOf [0, 0, 0, 1]) []) [] 1
      (by decide) (by decide) (by decide)
  rw [h]
  decide

/-- C2 counterexample: the claim says a mid-line `mode::decode` failure makes
`decode_g4` return `None` for every height option. On `[0x80]` with width 1
and height `Some 2`, the first line decodes (one Vertical(0) symbol) and the
second line hits a mode-decode failure on the seven remaining zero bits — yet
`decode_g4` returns `Some(())` because a specified height skips the EOFB
check. -/
theorem c2_counterexample :
    modeDecode (List.replicate 7 false) = none ∧
    decodeG4 [0x80] 1 (some 2) = (some (), [[]]) := by
  constructor
  · decide
  · decide

/-- C2 (amended): if `mode::decode` fails mid-line the step breaks the outer
loop with the state unchanged, the outer loop then finishes without emitting
the partially built line, and the final result is `Some(())` when a height was
specified but `None` when it was not (bits on which `mode::decode` fails
cannot begin with the EOFB half marker, so the trailing `expect` fails). -/
theorem c2_amended :
    (∀ (width : Nat) (st : G4State), modeDecode st.bits = none →
      g4step width st = .halt st) ∧
    (∀ (width fuel ll : Nat) (bits : List Bool) (ref : List Nat) (acc : List (List Nat))
      (st' : G4State),
      lineLoop width (bits.length + 1) (initLine bits ref) = some (.halt st') →
      outerLoop width (fuel + 1) (ll + 1) bits ref acc = .done st'.bits acc) ∧
    (∀ (n : Nat) (bits : List Bool) (acc : List (List Nat)),
      g4Finish (some n) bits acc = (some (), acc)) ∧
    (∀ (bits : List Bool) (acc : List (List Nat)), modeDecode bits = none →
      g4Finish none bits acc = (none, acc)) := by
  refine ⟨?_, ?_, ?_, ?_⟩
  · intro w st h
    simp [g4step, h]
  · intro w fuel ll bits ref acc st' h
    simp [outerLoop, h]
  · intro n bits acc
    rfl
  · intro bits acc h
    simp [g4Finish, expect_edfb_of_modeDecode_none h]

/-- Witness for C2 (amended) at concrete inputs: a two-zero-bit stream fails
mode decoding and halts the step; a one-line halt yields `done` without
emission; `g4Finish` succeeds under a height and fails without one. -/
theorem c2_witness :
    g4step 5 ⟨[false, false], [], [], 0, 0, Color.White, true⟩ =
      StepRes.halt ⟨[false, false], [], [], 0, 0, Color.White, true⟩ ∧
    outerLoop 5 1 1 [false] [] [] = OuterRes.done [false] [] ∧
    g4Finish (some 3) [true] [[2]] = (some (), [[2]]) ∧
    g4Finish none [false, false] [[1]] = (none, [[1]]) :=
  ⟨c2_amended.1 5 ⟨[false, false], [], [], 0, 0, Color.White, true⟩ (by decide),
   c2_amended.2.1 5 0 0 [false] [] [] (initLine [false] []) (by decide),
   c2_amended.2.2.1 3 [true] [[2]],
   c2_amended.2.2.2 [false, false] [[1]] (by decide)⟩

/-- C6 counterexample: the claim says an Extension symbol always yields
`Some(())`, for both height options. On `[0x02, 0x00]` with width 1 and no
height, Extension is decoded and its 3 identifier bits are consumed, but the
epilogue then fails to find the EOFB half marker, so `decode_g4` returns
`None`. -/
theorem c6_counterexample :
    modeDecode (bytesToBits [0x02, 0x00]) = some (Mode.extension, List.replicate 9 false) ∧
    decodeG4 [0x02, 0x00] 1 none = (none, []) := by
  constructor
  · decide
  · decide

/-- C6 (amended): on an Extension symbol `decode_g4` peeks 3 bits — failing
the whole decode when fewer than 3 remain — consumes them and halts the
decode; the overall result is then `Some(())` when a height was specified,
and when the height is unspecified it is `Some(())` exactly when the
remaining bits start with the EOFB half marker. -/
theorem c6_amended :
    (∀ (width : Nat) (st : G4State) (rest : List Bool),
      modeDecode st.bits = some (Mode.extension, rest) → 3 ≤ rest.length →
      g4step width st = .halt { st with bits := rest.drop 3 }) ∧
    (∀ (width : Nat) (st : G4State) (rest : List Bool),
      modeDecode st.bits = some (Mode.extension, rest) → rest.length < 3 →
      g4step width st = .fail) ∧
    (∀ (n : Nat) (bits : List Bool) (acc : List (List Nat)),
      (g4Finish (some n) bits acc).1 = some ()) ∧
    (∀ (bits : List Bool) (acc : List (List Nat)),
      (g4Finish none bits acc).1 = some () ↔ (expectBits edfbHalf bits).isSome) := by
  refine ⟨?_, ?_, ?_, ?_⟩
  · intro w st rest hm h3
    simp [g4step, hm, peekBits, h3]
  · intro w st rest hm h3
    have h' : ¬(3 ≤ rest.length) := by omega
    simp [g4step, hm, peekBits, h']
  · intro n bits acc
    rfl
  · intro bits acc
    cases he : expectBits edfbHalf bits <;> simp [g4Finish, he]

/-- Witness for C6 (amended) at concrete inputs: an Extension code followed by
four bits halts with the identifier consumed; one followed by a single bit
fails; `g4Finish` succeeds with a height and mirrors the EOFB check without. -/
theorem c6_witness :
    g4step 7 ⟨bitsOf [0, 0, 0, 0, 0, 0, 1, 1, 1, 1, 0], [], [], 0, 0, Color.White, true⟩ =
      StepRes.halt ⟨[false], [], [], 0, 0, Color.White, true⟩ ∧
    g4step 7 ⟨bitsOf [0, 0, 0, 0, 0, 0, 1, 1], [], [], 0, 0, Color.White, true⟩ =
      StepRes.fail ∧
    (g4Finish (some 2) [false] [[3]]).1 = some () ∧
    ((g4Finish none (eolBits ++ [true]) [[3]]).1 = some () ↔
      (expectBits edfbHalf (eolBits ++ [true])).isSome) :=
  ⟨c6_amended.1 7 ⟨bitsOf [0, 0, 0, 0, 0, 0, 1, 1, 1, 1, 0], [], [], 0, 0, Color.White, true⟩
      (bitsOf [1, 1, 1, 0]) (by decide) (by decide),
   c6_amended.2.1 7 ⟨bitsOf [0, 0, 0, 0, 0, 0, 1, 1], [], [], 0, 0, Color.White, true⟩
      (bitsOf [1]) (by decide) (by decide),
   c6_amended.2.2.1 2 [false] [[3]],
   c6_amended.2.2.2 (eolBits ++ [true]) [[3]]⟩

/-- C4 counterexample: the claim says a negative `b1 + delta` always ends the
line with nothing pushed, for every width. With width 65534 the stream
`[0x0E, 0x0A]` (Vertical(+2), Vertical(0); then Vertical(-3), Vertical(0))
first emits the line `[0]`; on the second line the cursor finds `b1 = 0` and
Vertical(-3) computes `0 - 3` in 16-bit arithmetic, wrapping to 65533, which
passes the `< width` check and is pushed — the emitted second line is
`[65533]`. The step-level conjunct isolates the push: `b1 = 0`, `delta = -3`,
`(0 : Int) + (-3) < 0`, yet the step continues with 65533 appended. -/
theorem c4_counterexample :
    decodeG4 [0x0E, 0x0A] 65534 (some 2) = (some (), [[0], [65533]]) ∧
    g4step 65534 ⟨bitsOf [0, 0, 0, 0, 0, 1, 0, 1, 0], [0], [], 0, 0, Color.White, true⟩ =
      StepRes.cont ⟨bitsOf [1, 0], [0], [65533], 1, 65533, Color.Black, false⟩ ∧
    ((0 : Int) + (-3) < 0) := by
  refine ⟨by decide, by decide, by decide⟩

/-- C4 (amended): `a1` is computed from `b1` and `delta` by the cast chain
`(b1 as i16 + delta as i16) as u16`, i.e. `(b1 + delta) mod 2^16`, and then
compared against `width`. When `b1 + delta` is negative the wrapped value is
at least 65533, so for every width at most 65533 (deltas are in `[-3, 3]`)
the line ends and nothing is pushed; for larger widths the wrapped value can
be pushed (see the counterexample). -/
theorem c4_amended :
    ∀ (width : Nat) (st : G4State) (delta : Int) (bits' : List Bool) (pos1 b1 : Nat),
    modeDecode st.bits = some (Mode.vertical delta, bits') →
    nextColor st.reference st.pos st.a0 st.color.flip st.startOfRow = some (pos1, b1) →
    (b1 : Int) + delta < 0 → -3 ≤ delta → width ≤ 65533 →
    g4step width st = .endLine { st with bits := bits', pos := pos1 } := by
  intro w st delta bits' pos1 b1 hm hnc hneg hd hw
  have hkey : w ≤ (((b1 : Int) + delta) % 65536).toNat := by omega
  simp [g4step, hm, verticalStep, hnc, vertCore, hkey]

/-- Witness for C4 (amended): Vertical(-3) at the start of a row with
reference `[0]` and width 10: `b1 = 0`, `0 + (-3) < 0`, and the step ends the
line with nothing pushed. -/
theorem c4_witness :
    g4step 10 ⟨bitsOf [0, 0, 0, 0, 0, 1, 0], [0], [], 0, 0, Color.White, true⟩ =
      StepRes.endLine ⟨[], [0], [], 1, 0, Color.White, true⟩ :=
  c4_amended 10 ⟨bitsOf [0, 0, 0, 0, 0, 1, 0], [0], [], 0, 0, Color.White, true⟩ (-3) [] 1 0
    (by decide) (by decide) (by decide) (by decide) (by decide)

lemma passStep_ne_halt (w : Nat) (st : G4State) (b : List Bool) (st' : G4State) :
    passStep w st b ≠ .halt st' := by
  unfold passStep
  split
  · simp
  · split <;> (unfold finishStep; split <;> simp)

lemma vertCore_ne_halt (w : Nat) (d : Int) (st : G4State) (b1 : Nat) (st' : G4State) :
    vertCore w d st b1 ≠ .halt st' := by
  unfold vertCore
  split
  · simp
  · split <;> (unfold finishStep; split <;> simp)

lemma horizontalStep_ne_halt (w : Nat) (st : G4State) (b : List Bool) (st' : G4State) :
    horizontalStep w st b ≠ .halt st' := by
  unfold horizontalStep
  split
  · simp
  · split
    · simp
    · split
      · simp
      · unfold finishStep
        split <;> simp

lemma vertCore_current {w : Nat} {d : Int} {st : G4State} {b1 : Nat} {st' : G4State}
    (h : vertCore w d st b1 = .cont st' ∨ vertCore w d st b1 = .endLine st') :
    st'.current = st.current ∨ ∃ a, a < w ∧ st'.current = st.current ++ [a] := by
  unfold vertCore at h
  by_cases hc : w ≤ (((b1 : Int) + d) % 65536).toNat
  · rw [if_pos hc] at h
    rcases h with h | h
    · cases h
    · injection h with h2
      rw [← h2]
      left
      rfl
  · rw [if_neg hc] at h
    right
    refine ⟨(((b1 : Int) + d) % 65536).toNat, by omega, ?_⟩
    by_cases hd : d < 0
    · rw [if_pos hd] at h
      unfold finishStep at h
      dsimp only at h
      rw [if_neg hc] at h
      rcases h with h | h
      · injection h with h2
        rw [← h2]
      · cases h
    · rw [if_neg hd] at h
      unfold finishStep at h
      dsimp only at h
      rw [if_neg hc] at h
      rcases h with h | h
      · injection h with h2
        rw [← h2]
      · cases h

/-- C1 counterexample: the claim says every emitted line is strictly
increasing with entries in `(0, width)`. On `[0x26, 0xB9, 0x35, 0x47, 0x10]`
(three Horizontal symbols: runs 0/2, 0/1, 5/1) with width 4 and height 1, the
emitted line is `[0, 2, 2, 3, 8]`: it contains 0, a repeated position 2, and
the position 8 which is at least the width — all three stated properties
fail. -/
theorem c1_counterexample :
    decodeG4 [0x26, 0xB9, 0x35, 0x47, 0x10] 4 (some 1) = (some (), [[0, 2, 2, 3, 8]]) := by
  decide

/-- C1 (amended): the positions appended to `current` satisfy exactly this:
a Vertical step appends at most one position and any position it appends is
strictly less than `width`; a Horizontal step appends `a1` unconditionally
(it may equal 0, repeat an earlier position, or reach `width`) and appends a
second position `a2` only when `a2 < width`; Pass steps and the halting steps
append nothing. No strict-increase or positive lower bound holds. -/
theorem c1_amended :
    (∀ (width : Nat) (st : G4State) (delta : Int) (rest : List Bool) (st' : G4State),
      modeDecode st.bits = some (Mode.vertical delta, rest) →
      g4step width st = .cont st' ∨ g4step width st = .endLine st' →
      st'.current = st.current ∨ ∃ a, a < width ∧ st'.current = st.current ++ [a]) ∧
    (∀ (width : Nat) (st : G4State) (rest : List Bool) (st' : G4State),
      modeDecode st.bits = some (Mode.horizontal, rest) →
      g4step width st = .cont st' ∨ g4step width st = .endLine st' →
      ∃ a1, st'.current = st.current ++ [a1] ∨
        ∃ a2, a2 < width ∧ st'.current = st.current ++ [a1, a2]) ∧
    (∀ (width : Nat) (st : G4State) (rest : List Bool) (st' : G4State),
      modeDecode st.bits = some (Mode.pass, rest) →
      g4step width st = .cont st' ∨ g4step width st = .endLine st' →
      st'.current = st.current) ∧
    (∀ (width : Nat) (st : G4State) (st' : G4State),
      g4step width st = .halt st' → st'.current = st.current) := by
  refine ⟨?_, ?_, ?_, ?_⟩
  · intro w st delta rest st' hm hstep
    have hg : g4step w st = verticalStep w delta st rest := by simp [g4step, hm]
    rw [hg] at hstep
    unfold verticalStep at hstep
    split at hstep
    · have h2 := vertCore_current hstep
      exact h2
    · have h2 := vertCore_current hstep
      exact h2
  · intro w st rest st' hm hstep
    have hg : g4step w st = horizontalStep w st rest := by simp [g4step, hm]
    rw [hg] at hstep
    cases hc1 : colored st.color rest with
    | none =>
      simp only [horizontalStep, hc1] at hstep
      rcases hstep with h | h <;> cases h
    | some pr =>
      obtain ⟨a0a1, bits2⟩ := pr
      cases hc2 : colored st.color.flip bits2 with
      | none =>
        simp only [horizontalStep, hc1, hc2] at hstep
        rcases hstep with h | h <;> cases h
      | some pr2 =>
        obtain ⟨a1a2, bits3⟩ := pr2
        simp only [horizontalStep, hc1, hc2] at hstep
        by_cases hc : w ≤ ((st.a0 + a0a1) % 65536 + a1a2) % 65536
        · rw [if_pos hc] at hstep
          rcases hstep with h | h
          · cases h
          · injection h with h2
            exact ⟨(st.a0 + a0a1) % 65536, Or.inl (by rw [← h2])⟩
        · rw [if_neg hc] at hstep
          unfold finishStep at hstep
          dsimp only at hstep
          rw [if_neg hc] at hstep
          refine ⟨(st.a0 + a0a1) % 65536,
            Or.inr ⟨((st.a0 + a0a1) % 65536 + a1a2) % 65536, by omega, ?_⟩⟩
          rcases hstep with h | h
          · injection h with h2
            rw [← h2]
          · cases h
  · intro w st rest st' hm hstep
    have hg : g4step w st = passStep w st rest := by simp [g4step, hm]
    rw [hg] at hstep
    cases hl : passLocate st with
    | none =>
      simp only [passStep, hl] at hstep
      rcases hstep with h | h <;> cases h
    | some pos1 =>
      simp only [passStep, hl] at hstep
      have hfin : ∀ st2 : G4State, finishStep w st2 = .cont st' ∨ finishStep w st2 = .endLine st' →
          st'.current = st2.current := by
        intro st2 hf
        unfold finishStep at hf
        by_cases hw : w ≤ st2.a0
        · rw [if_pos hw] at hf
          rcases hf with h | h
          · cases h
          · injection h with h2
            rw [← h2]
        · rw [if_neg hw] at hf
          rcases hf with h | h
          · injection h with h2
            rw [← h2]
          · cases h
      cases hnt : nextT st.reference pos1 with
      | mk pos2 ob =>
        cases ob with
        | some b2 =>
          rw [hnt] at hstep
          dsimp only at hstep
          have h3 := hfin _ hstep
          exact h3
        | none =>
          rw [hnt] at hstep
          dsimp only at hstep
          have h3 := hfin _ hstep
          exact h3
  · intro w st st' h
    unfold g4step at h
    split at h
    · injection h with h2
      rw [← h2]
    · split at h
      · exact absurd h (passStep_ne_halt _ _ _ _)
      · unfold verticalStep at h
        split at h <;> exact absurd h (vertCore_ne_halt _ _ _ _ _)
      · exact absurd h (horizontalStep_ne_halt _ _ _ _)
      · split at h
        · cases h
        · injection h with h2
          rw [← h2]
      · injection h with h2
        rw [← h2]

/-- Witness for C1 (amended) at concrete inputs: a Vertical(+1) over an empty
reference with width 5 ends the line appending nothing; a Horizontal with
runs 0 and 7 at width 4 appends only `a1 = 0`; a Pass appends nothing; an EOF
halt appends nothing. -/
theorem c1_witness :
    (([] : List Nat) = [] ∨ ∃ a, a < 5 ∧ ([] : List Nat) = [] ++ [a]) ∧
    (∃ a1, ([0] : List Nat) = [] ++ [a1] ∨ ∃ a2, a2 < 4 ∧ ([0] : List Nat) = [] ++ [a1, a2]) ∧
    (([7] : List Nat) = [7]) ∧
    (([] : List Nat) = []) :=
  ⟨c1_amended.1 5 ⟨bitsOf [0, 1, 1], [], [], 0, 0, Color.White, true⟩ 1 []
      ⟨[], [], [], 0, 0, Color.White, true⟩ (by decide) (Or.inr (by decide)),
   c1_amended.2.1 4 ⟨bitsOf [0, 0, 1, 0, 0, 1, 1, 0, 1, 0, 1, 0, 0, 0, 1, 1], [], [], 0, 0,
        Color.White, true⟩
      (bitsOf [0, 0, 1, 1, 0, 1, 0, 1, 0, 0, 0, 1, 1]) ⟨[], [], [0], 0, 0, Color.White, true⟩
      (by decide) (Or.inr (by decide)),
   c1_amended.2.2.1 9 ⟨bitsOf [0, 0, 0, 1], [3, 6], [7], 0, 0, Color.White, true⟩
      [] ⟨[], [3, 6], [7], 2, 6, Color.White, false⟩ (by decide) (Or.inl (by decide)),
   c1_amended.2.2.2 3 ⟨eolBits, [], [], 0, 0, Color.White, true⟩
      ⟨[], [], [], 0, 0, Color.White, true⟩ (by decide)⟩

lemma pels_take_spec : ∀ (line : List Nat) (c : Color) (last w : Nat),
    List.Chain (· < ·) last line →
    (pelsCore c last line ++ List.replicate w (padOf c line)).take w
      = (List.range' last w).map (specColor c line) := by
  intro line
  induction line with
  | nil =>
    intro c last w _
    have hpad : padOf c [] = c := rfl
    rw [hpad]
    simp only [pelsCore, List.nil_append]
    rw [List.take_replicate]
    symm
    rw [List.eq_replicate_iff]
    constructor
    · simp
    · intro b hb
      rcases List.mem_map.mp hb with ⟨j, _, rfl⟩
      exact specColor_of_forall_lt (by intro x hx; cases hx)
  | cons p rest ih =>
    intro c last w hch
    rw [List.chain_cons] at hch
    obtain ⟨hlt, hch'⟩ := hch
    have hmem : ∀ x ∈ rest, p < x := chain_lt_of_mem hch'
    rw [show pelsCore c last (p :: rest)
        = List.replicate (p - last) c ++ pelsCore c.flip p rest from rfl]
    rw [padOf_cons, List.append_assoc, List.take_append_eq_append_take, List.take_replicate,
        List.length_replicate]
    by_cases hw : w ≤ p - last
    · have h0 : w - (p - last) = 0 := by omega
      rw [h0, List.take_zero, List.append_nil, min_eq_left hw]
      symm
      rw [List.eq_replicate_iff]
      constructor
      · simp
      · intro b hb
        rcases List.mem_map.mp hb with ⟨j, hj, rfl⟩
        have hjb := List.mem_range'_1.mp hj
        apply specColor_of_forall_lt
        intro x hx
        rcases List.mem_cons.mp hx with rfl | hx'
        · omega
        · have := hmem x hx'
          omega
    · push_neg at hw
      rw [min_eq_right (le_of_lt hw)]
      rw [take_append_replicate (pelsCore c.flip p rest) (padOf c.flip rest) w
          (w - (p - last)) (by omega)]
      rw [ih c.flip p (w - (p - last)) hch']
      have hsplit : List.range' last w
          = List.range' last (p - last) ++ List.range' p (w - (p - last)) := by
        have h1 := List.range'_append last (p - last) (w - (p - last)) 1
        have e1 : last + 1 * (p - last) = p := by omega
        have e2 : (w - (p - last)) + (p - last) = w := by omega
        rw [e1, e2] at h1
        exact h1.symm
      rw [hsplit, List.map_append]
      congr 1
      · symm
        rw [List.eq_replicate_iff]
        constructor
        · simp
        · intro b hb
          rcases List.mem_map.mp hb with ⟨j, hj, rfl⟩
          have hjb := List.mem_range'_1.mp hj
          apply specColor_of_forall_lt
          intro x hx
          rcases List.mem_cons.mp hx with rfl | hx'
          · omega
          · have := hmem x hx'
            omega
      · apply List.map_congr_left
        intro j hj
        have hjb := List.mem_range'_1.mp hj
        exact (specColor_cons_of_le c p rest j hjb.1).symm

/-- C5: for a strictly increasing transition list with entries in
`(0, width)`, `pels` yields exactly `width` colors and equals the
specification coloring `specColor`: pixel `j` starts from White and is
flipped once per listed position at most `j` — so the line begins White, each
listed position flips the color there, and every pixel at or beyond the last
transition carries the ending color (White for an even number of transitions,
Black for an odd one). The `Chain` hypothesis is exactly "strictly increasing
and all entries positive". -/
theorem c5_pels_materializer :
    ∀ (line : List Nat) (width : Nat),
    List.Chain (· < ·) 0 line → (∀ p ∈ line, p < width) →
    (pels line width).length = width ∧
    pels line width = (List.range width).map (specColor Color.White line) := by
  intro line width hch _
  refine ⟨pels_length line width, ?_⟩
  rw [List.range_eq_range']
  exact pels_take_spec line Color.White 0 width hch

/-- Witness for C5 at the transition list `[2, 5]` with width 8 (the spec's
scenario S3 line, WWBBBWWW). -/
theorem c5_witness :
    (pels [2, 5] 8).length = 8 ∧
    pels [2, 5] 8 = (List.range 8).map (specColor Color.White [2, 5]) :=
  c5_pels_materializer [2, 5] 8 (by simp [List.chain_cons]) (by decide)

lemma eolCheck_true_iff : ∀ (k : Nat) (bs : List Bool),
    (eolCheck k bs).2 = true ↔ ∀ i < k, peekBits 12 (bs.drop (12 * i)) = some 1 := by
  intro k
  induction k with
  | zero =>
    intro bs
    simp [eolCheck]
  | succ k ih =>
    intro bs
    by_cases h : peekBits 12 bs = some 1
    · rw [show eolCheck (k + 1) bs = eolCheck k (bs.drop 12) from by rw [eolCheck, if_pos h]]
      rw [ih (bs.drop 12)]
      constructor
      · intro hall i hi
        cases i with
        | zero => simpa using h
        | succ i' =>
          have h2 := hall i' (by omega)
          rw [List.drop_drop] at h2
          have e : 12 + 12 * i' = 12 * (i' + 1) := by ring
          rw [e] at h2
          exact h2
      · intro hall i hi
        have h2 := hall (i + 1) (by omega)
        rw [List.drop_drop]
        have e : 12 + 12 * i = 12 * (i + 1) := by ring
        rw [e]
        exact h2
    · rw [show eolCheck (k + 1) bs = (bs, false) from by rw [eolCheck, if_neg h]]
      constructor
      · intro hf
        exact absurd hf (by simp)
      · intro hall
        exact absurd (by simpa using hall 0 (by omega)) h

lemma eolCheck_true_drop : ∀ (k : Nat) (bs : List Bool),
    (eolCheck k bs).2 = true → (eolCheck k bs).1 = bs.drop (12 * k) := by
  intro k
  induction k with
  | zero =>
    intro bs _
    simp [eolCheck]
  | succ k ih =>
    intro bs ht
    by_cases h : peekBits 12 bs = some 1
    · have he : eolCheck (k + 1) bs = eolCheck k (bs.drop 12) := by rw [eolCheck, if_pos h]
      rw [he] at ht ⊢
      rw [ih (bs.drop 12) ht, List.drop_drop]
      have e : 12 + 12 * k = 12 * (k + 1) := by ring
      rw [e]
    · have he : eolCheck (k + 1) bs = (bs, false) := by rw [eolCheck, if_neg h]
      rw [he] at ht
      exact absurd ht (by simp)

lemma eolCheck_false_drop : ∀ (k : Nat) (bs : List Bool),
    (eolCheck k bs).2 = false →
    ∃ j, j < k ∧ (∀ i < j, peekBits 12 (bs.drop (12 * i)) = some 1) ∧
      ¬(peekBits 12 (bs.drop (12 * j)) = some 1) ∧ (eolCheck k bs).1 = bs.drop (12 * j) := by
  intro k
  induction k with
  | zero =>
    intro bs hf
    exact absurd hf (by simp [eolCheck])
  | succ k ih =>
    intro bs hf
    by_cases h : peekBits 12 bs = some 1
    · have he : eolCheck (k + 1) bs = eolCheck k (bs.drop 12) := by rw [eolCheck, if_pos h]
      rw [he] at hf ⊢
      obtain ⟨j, hj, hfore, hnot, hdrop⟩ := ih (bs.drop 12) hf
      rw [List.drop_drop] at hnot hdrop
      have e : 12 + 12 * j = 12 * (j + 1) := by ring
      rw [e] at hnot hdrop
      refine ⟨j + 1, by omega, ?_, hnot, hdrop⟩
      intro i hi
      cases i with
      | zero => simpa using h
      | succ i' =>
        have h2 := hfore i' (by omega)
        rw [List.drop_drop] at h2
        have e2 : 12 + 12 * i' = 12 * (i' + 1) := by ring
        rw [e2] at h2
        exact h2
    · have he : eolCheck (k + 1) bs = (bs, false) := by rw [eolCheck, if_neg h]
      rw [he]
      refine ⟨0, by omega, ?_, ?_, ?_⟩
      · intro i hi
        exact absurd hi (by omega)
      · simpa using h
      · simp

/-- C8: after a Group 3 line is emitted and its trailing EOL consumed, the
scan halts exactly when the next six consecutive 12-bit groups are all EOL
patterns, consuming all 72 bits; with fewer than six, exactly the EOL groups
seen so far are consumed and the loop moves on to the next line (the fourth
conjunct shows `g3Outer` halting with `.ok` on six EOLs and recursing on the
remaining bits otherwise). -/
theorem c8_end_of_page :
    (∀ bs : List Bool,
      (eolCheck 6 bs).2 = true ↔ ∀ i < 6, peekBits 12 (bs.drop (12 * i)) = some 1) ∧
    (∀ bs : List Bool, (eolCheck 6 bs).2 = true → (eolCheck 6 bs).1 = bs.drop 72) ∧
    (∀ bs : List Bool, (eolCheck 6 bs).2 = false →
      ∃ j, j < 6 ∧ (∀ i < j, peekBits 12 (bs.drop (12 * i)) = some 1) ∧
        ¬(peekBits 12 (bs.drop (12 * j)) = some 1) ∧ (eolCheck 6 bs).1 = bs.drop (12 * j)) ∧
    (∀ (fuel : Nat) (bs : List Bool) (acc : List (List Nat)) (line : List Nat)
      (bs1 bs2 : List Bool),
      g3Runs (bs.length + 1) 0 Color.White [] bs = (line, bs1) →
      expectBits eolBits bs1 = some bs2 →
      ((eolCheck 6 bs2).2 = true → g3Outer (fuel + 1) bs acc = .ok (acc ++ [line])) ∧
      ((eolCheck 6 bs2).2 = false →
        g3Outer (fuel + 1) bs acc = g3Outer fuel (eolCheck 6 bs2).1 (acc ++ [line]))) := by
  refine ⟨?_, ?_, ?_, ?_⟩
  · intro bs
    exact eolCheck_true_iff 6 bs
  · intro bs ht
    have h := eolCheck_true_drop 6 bs ht
    simpa using h
  · intro bs
    exact eolCheck_false_drop 6 bs
  · intro fuel bs acc line bs1 bs2 hruns hexp
    constructor
    · intro ht
      rcases he : eolCheck 6 bs2 with ⟨b3, fl⟩
      rw [he] at ht
      dsimp only at ht
      subst ht
      simp only [g3Outer, hruns, hexp, he]
    · intro hf
      rcases he : eolCheck 6 bs2 with ⟨b3, fl⟩
      rw [he] at hf
      dsimp only at hf
      subst hf
      simp only [g3Outer, hruns, hexp, he]

/-- Witness for C8 at concrete streams: six EOLs (bytes `00 10 01` thrice)
halt the scan consuming 72 bits; the empty stream stops at the first group;
a single EOL then end of data makes `g3Outer` emit the empty line and recurse
rather than halt. -/
theorem c8_witness :
    (eolCheck 6 (bytesToBits [0, 16, 1, 0, 16, 1, 0, 16, 1])).1
      = (bytesToBits [0, 16, 1, 0, 16, 1, 0, 16, 1]).drop 72 ∧
    (∃ j, j < 6 ∧ (∀ i < j, peekBits 12 (([] : List Bool).drop (12 * i)) = some 1) ∧
      ¬(peekBits 12 (([] : List Bool).drop (12 * j)) = some 1) ∧
      (eolCheck 6 ([] : List Bool)).1 = ([] : List Bool).drop (12 * j)) ∧
    g3Outer 1 eolBits [] = g3Outer 0 (eolCheck 6 ([] : List Bool)).1 ([] ++ [[]]) :=
  ⟨c8_end_of_page.2.1 (bytesToBits [0, 16, 1, 0, 16, 1, 0, 16, 1]) (by decide),
   c8_end_of_page.2.2.1 ([] : List Bool) (by decide),
   (c8_end_of_page.2.2.2 0 eolBits [] [] eolBits []
      (by decide) (by decide)).2 (by decide)⟩

end Fax
